import Mathlib

/-!
Verification of the mailbox-access core of the mail-retrieval server
(`src/ymail/main.py`).  Python strings are modelled as `List Char`
(sequences of Unicode code points), byte strings as `List Nat` with each
entry below 256, and fallible library calls as `Option`/`Except` values.
Each definition is a direct transcription of the Python function or
expression it is named after.
-/

set_option maxRecDepth 10000

namespace YMail

/-- The Unicode replacement character U+FFFD, emitted by permissive
byte-to-text decoding. -/
def replChar : Char := Char.ofNat 0xFFFD

/-- Is a byte a UTF-8 continuation byte (0x80–0xBF)? -/
def isCont (b : Nat) : Bool := 0x80 ≤ b && b ≤ 0xBF

/-- Valid range test for the first continuation byte of a three-byte
UTF-8 sequence headed by `b` (0xE0 narrows to A0–BF, 0xED to 80–9F). -/
def cont3Ok (b b2 : Nat) : Bool :=
  if b = 0xE0 then 0xA0 ≤ b2 && b2 ≤ 0xBF
  else if b = 0xED then 0x80 ≤ b2 && b2 ≤ 0x9F
  else isCont b2

/-- Valid range test for the first continuation byte of a four-byte
UTF-8 sequence headed by `b` (0xF0 narrows to 90–BF, 0xF4 to 80–8F). -/
def cont4Ok (b b2 : Nat) : Bool :=
  if b = 0xF0 then 0x90 ≤ b2 && b2 ≤ 0xBF
  else if b = 0xF4 then 0x80 ≤ b2 && b2 ≤ 0x8F
  else isCont b2

/-- CPython `bytes.decode('utf-8', errors='replace')`: total UTF-8
decoding that substitutes one U+FFFD per maximal invalid subpart (an
invalid leading byte is consumed alone; a valid prefix of a truncated
multi-byte sequence is consumed as one unit). -/
def utf8DecodeReplace : List Nat → List Char
  | [] => []
  | b :: rest =>
    if b < 0x80 then Char.ofNat b :: utf8DecodeReplace rest
    else if 0xC2 ≤ b && b ≤ 0xDF then
      match rest with
      | [] => [replChar]
      | b2 :: rest2 =>
        if isCont b2 then
          Char.ofNat ((b - 0xC0) * 64 + (b2 - 0x80)) :: utf8DecodeReplace rest2
        else replChar :: utf8DecodeReplace (b2 :: rest2)
    else if 0xE0 ≤ b && b ≤ 0xEF then
      match rest with
      | [] => [replChar]
      | b2 :: rest2 =>
        if cont3Ok b b2 then
          match rest2 with
          | [] => [replChar]
          | b3 :: rest3 =>
            if isCont b3 then
              Char.ofNat ((b - 0xE0) * 4096 + (b2 - 0x80) * 64 + (b3 - 0x80))
                :: utf8DecodeReplace rest3
            else replChar :: utf8DecodeReplace (b3 :: rest3)
        else replChar :: utf8DecodeReplace (b2 :: rest2)
    else if 0xF0 ≤ b && b ≤ 0xF4 then
      match rest with
      | [] => [replChar]
      | b2 :: rest2 =>
        if cont4Ok b b2 then
          match rest2 with
          | [] => [replChar]
          | b3 :: rest3 =>
            if isCont b3 then
              match rest3 with
              | [] => [replChar]
              | b4 :: rest4 =>
                if isCont b4 then
                  Char.ofNat ((b - 0xF0) * 262144 + (b2 - 0x80) * 4096 +
                      (b3 - 0x80) * 64 + (b4 - 0x80)) :: utf8DecodeReplace rest4
                else replChar :: utf8DecodeReplace (b4 :: rest4)
            else replChar :: utf8DecodeReplace (b3 :: rest3)
        else replChar :: utf8DecodeReplace (b2 :: rest2)
    else replChar :: utf8DecodeReplace rest
  termination_by l => l.length
  decreasing_by all_goals (simp [List.length]; try omega)

/-- CPython `bytes.decode('utf-16be')` with strict errors: pair bytes
big-endian into 16-bit units, combine surrogate pairs, and fail (`none`)
on an odd byte count, a lone surrogate, or a truncated pair. -/
def utf16beDecode : List Nat → Option (List Char)
  | [] => some []
  | [_] => none
  | b1 :: b2 :: rest =>
    let u := b1 * 256 + b2
    if 0xD800 ≤ u && u ≤ 0xDBFF then
      match rest with
      | b3 :: b4 :: rest2 =>
        let v := b3 * 256 + b4
        if 0xDC00 ≤ v && v ≤ 0xDFFF then
          (utf16beDecode rest2).map
            (Char.ofNat (0x10000 + (u - 0xD800) * 1024 + (v - 0xDC00)) :: ·)
        else none
      | _ => none
    else if 0xDC00 ≤ u && u ≤ 0xDFFF then none
    else (utf16beDecode rest).map (Char.ofNat u :: ·)
  termination_by l => l.length
  decreasing_by all_goals simp_all [List.length]; omega

/-- The standard Base64 alphabet value of a character (`none` for any
character outside the alphabet; `=` is handled separately). -/
def b64CharVal (c : Char) : Option Nat :=
  if 'A' ≤ c && c ≤ 'Z' then some (c.toNat - 65)
  else if 'a' ≤ c && c ≤ 'z' then some (c.toNat - 97 + 26)
  else if '0' ≤ c && c ≤ '9' then some (c.toNat - 48 + 52)
  else if c = '+' then some 62
  else if c = '/' then some 63
  else none

/-- CPython `binascii.a2b_base64` in non-strict mode: characters outside
the alphabet are skipped; a `=` seen with at least two data characters in
the current quad counts toward padding and, once the quad is completed by
padding, decoding stops; a final partial quad is an error (`none`).
State: remaining input, quad position (0–3), pending high bits, count of
padding characters seen since the last data character, accumulated output
bytes in reverse. -/
def a2bBase64Loop : List Char → Nat → Nat → Nat → List Nat → Option (List Nat)
  | [], quadPos, _, _, acc => if quadPos = 0 then some acc.reverse else none
  | c :: rest, quadPos, leftchar, pads, acc =>
    if c = '=' then
      if 2 ≤ quadPos then
        if 4 ≤ quadPos + (pads + 1) then some acc.reverse
        else a2bBase64Loop rest quadPos leftchar (pads + 1) acc
      else a2bBase64Loop rest quadPos leftchar pads acc
    else
      match b64CharVal c with
      | none => a2bBase64Loop rest quadPos leftchar pads acc
      | some v =>
        match quadPos with
        | 0 => a2bBase64Loop rest 1 v 0 acc
        | 1 => a2bBase64Loop rest 2 (v % 16) 0 ((leftchar * 4 + v / 16) :: acc)
        | 2 => a2bBase64Loop rest 3 (v % 4) 0 ((leftchar * 16 + v / 4) :: acc)
        | _ => a2bBase64Loop rest 0 0 0 ((leftchar * 64 + v) :: acc)

/-- The exceptions that can escape the decoding calls inside
`decode_modified_utf7`.  `base64.b64decode` applied to a `str` holding a
non-ASCII character raises a plain `ValueError`; a filtered character
count ending a quad early raises `binascii.Error`; strict UTF-16BE
decoding raises `UnicodeDecodeError`. -/
inductive PyDecodeError
  | valueError
  | binasciiError
  | unicodeDecodeError
deriving DecidableEq, Repr

/-- CPython `base64.b64decode` on a `str` argument: the string is first
encoded as ASCII (a code point of 128 or more raises `ValueError`), then
fed to the non-strict `a2b_base64` machinery (whose failure raises
`binascii.Error`). -/
def b64decode (s : List Char) : Except PyDecodeError (List Nat) :=
  if s.any (fun c => 128 ≤ c.toNat) then .error .valueError
  else
    match a2bBase64Loop s 0 0 0 [] with
    | some bs => .ok bs
    | none => .error .binasciiError

/-- Index of the first `-` in a string, as used by `s.find('-', i+1)`. -/
def findDashIdx : List Char → Option Nat
  | [] => none
  | c :: rest => if c = '-' then some 0 else (findDashIdx rest).map (· + 1)

/-- The body of the `else` branch of `decode_modified_utf7` for a
non-trivial escape payload `s[i+1:j]`: translate `,` to `/`, pad with `=`
to a multiple of four characters, Base64-decode, then decode the bytes as
UTF-16BE.  A `binascii.Error` or `UnicodeDecodeError` is caught and the
literal `&<payload>-` is emitted instead; the `ValueError` raised by
`b64decode` on a non-ASCII payload is NOT among the caught exception
types and propagates. -/
def decodeEscapePayload (payload : List Char) : Except PyDecodeError (List Char) :=
  let encoded := payload.map (fun c => if c = ',' then '/' else c)
  let padded :=
    if encoded.length % 4 > 0 then
      encoded ++ List.replicate (4 - encoded.length % 4) '='
    else encoded
  match b64decode padded with
  | .error .valueError => .error .valueError
  | .error _ => .ok ('&' :: (payload ++ ['-'])) -- binascii.Error caught
  | .ok bytes =>
    match utf16beDecode bytes with
    | none => .ok ('&' :: (payload ++ ['-'])) -- UnicodeDecodeError caught
    | some text => .ok text

/-- `decode_modified_utf7` from `src/ymail/main.py` (lines 150–199): scan
left to right; `&` immediately followed by `-` is a literal `&`; `&` with
no later `-` emits a literal `&` and rescans from the next character; an
escape `&payload-` is decoded by `decodeEscapePayload`.  The result is
`Except` because a non-ASCII payload character raises an uncaught
`ValueError`. -/
def decode_modified_utf7 : List Char → Except PyDecodeError (List Char)
  | [] => .ok []
  | c :: rest =>
    if c = '&' && !rest.isEmpty then
      match findDashIdx rest with
      | none => (decode_modified_utf7 rest).map ('&' :: ·)
      | some 0 => (decode_modified_utf7 (rest.drop 1)).map ('&' :: ·)
      | some j =>
        match decodeEscapePayload (rest.take j) with
        | .error e => .error e
        | .ok t => (decode_modified_utf7 (rest.drop (j + 1))).map (t ++ ·)
    else (decode_modified_utf7 rest).map (c :: ·)
  termination_by l => l.length
  decreasing_by
    all_goals simp_all [List.length_drop]
    all_goals omega

/-- Python truthiness of an optional string: `None` and the empty string
are falsy. -/
def truthyOptStr : Option (List Char) → Bool
  | none => false
  | some s => !s.isEmpty

/-- Python whitespace (the characters for which `str.isspace` holds and
which the no-argument `str.lstrip` removes). -/
def isPySpace (c : Char) : Bool :=
  let n := c.toNat
  (9 ≤ n && n ≤ 13) || (28 ≤ n && n ≤ 31) || n = 32 || n = 0x85 || n = 0xA0 ||
    n = 0x1680 || (0x2000 ≤ n && n ≤ 0x200A) || n = 0x2028 || n = 0x2029 ||
    n = 0x202F || n = 0x205F || n = 0x3000

/-- `str.isspace`: true for a non-empty all-whitespace string. -/
def isSpaceStr (s : List Char) : Bool := !s.isEmpty && s.all isPySpace

/-- The line boundary characters of Python `str.splitlines`
(`\r\n` is additionally consumed as a single boundary). -/
def isLineBreakChar (c : Char) : Bool :=
  let n := c.toNat
  n = 10 || n = 11 || n = 12 || n = 13 || n = 28 || n = 29 || n = 30 ||
    n = 0x85 || n = 0x2028 || n = 0x2029

/-- Python `str.splitlines()`: break on each line boundary, pairing
`\r\n`, with no empty final line for a trailing boundary and `[]` for
the empty string. -/
def splitlinesPy : List Char → List (List Char)
  | [] => []
  | a :: t0 =>
    let s := a :: t0
    let line := s.takeWhile (fun c => !isLineBreakChar c)
    match s.drop line.length with
    | [] => [line]
    | '\r' :: '\n' :: _ => line :: splitlinesPy (s.drop (line.length + 2))
    | _ :: _ => line :: splitlinesPy (s.drop (line.length + 1))
  termination_by l => l.length
  decreasing_by
    all_goals
      simp [List.length_drop]
      omega

/-- Python `str.lower()` applied per code point (exact on the ASCII
range, which covers the charset and encoding tokens compared below). -/
def pyLower (s : List Char) : List Char := s.map Char.toLower

/-- The encoded-string capture of the encoded-word pattern `ecre` of
`email.header`: the non-greedy `.` run before the terminating `?=`,
where `.` does not match a newline.  Returns the captured characters, or
`none` when no `?=` terminator is reachable. -/
def findEncodedEnd : List Char → Option (List Char)
  | [] => none
  | '?' :: '=' :: _ => some []
  | c :: t => if c = '\n' then none else (findEncodedEnd t).map (c :: ·)

/-- A successful `ecre` match: the text before the match, the charset
capture, the encoding character, and the encoded-string capture.  The
match occupies `charset.length + encoded.length + 7` characters after
`pre` (the literals `=?`, two inner `?`, the encoding character and the
terminating `?=`). -/
structure EcreMatch where
  pre : List Char
  charset : List Char
  encChar : Char
  encoded : List Char

/-- The total character count consumed by an `ecre` match including the
text before it. -/
def ecreMatchLen (m : EcreMatch) : Nat :=
  m.pre.length + m.charset.length + m.encoded.length + 7

/-- Match the `ecre` pattern `=?charset?[qQbB]?encoded?=` anchored at the
head of the string: the charset is the (unique) non-`?` run before the
next `?` (it may span newlines), the encoding character is one of
`qQbB`, and the encoded string runs non-greedily to the next `?=`. -/
def ecreMatchAt (l : List Char) : Option (List Char × Char × List Char) :=
  match l with
  | '=' :: '?' :: t =>
    let cs := t.takeWhile (· ≠ '?')
    match t.drop cs.length with
    | '?' :: e :: '?' :: t5 =>
      if e = 'q' || e = 'Q' || e = 'b' || e = 'B' then
        (findEncodedEnd t5).map (fun enc => (cs, e, enc))
      else none
    | _ => none
  | _ => none

/-- `ecre.search`: the leftmost match of the encoded-word pattern, with
the unmatched text before it. -/
def findEcre : List Char → Option EcreMatch
  | [] => none
  | c :: t =>
    match ecreMatchAt (c :: t) with
    | some (cs, e, enc) => some ⟨[], cs, e, enc⟩
    | none =>
      (findEcre t).map (fun m => ⟨c :: m.pre, m.charset, m.encChar, m.encoded⟩)

/-- One entry of the `words` list built by `decode_header`: the string
value, the lowered encoding character (`none` for unencoded text) and
the lowered charset (`none` for unencoded text). -/
structure HeaderWord where
  value : List Char
  enc : Option Char
  charset : Option (List Char)
deriving DecidableEq

/-- The default used when indexing the `words` list. -/
def headerWordDefault : HeaderWord := ⟨[], none, none⟩

/-- The per-line word collection of `decode_header`: `ecre.split` the
line and walk the pieces, left-stripping only the first unencoded piece
of the line, keeping non-empty unencoded pieces as plain words and each
match as an encoded word with lowered encoding and charset. -/
def lineWords (first : Bool) : List Char → List HeaderWord
  | [] => []
  | a :: t0 =>
    match findEcre (a :: t0) with
    | none =>
      let u := if first then (a :: t0).dropWhile isPySpace else a :: t0
      if u.isEmpty then [] else [⟨u, none, none⟩]
    | some m =>
      let u := if first then m.pre.dropWhile isPySpace else m.pre
      (if u.isEmpty then [] else [⟨u, none, none⟩]) ++
        ⟨m.encoded, some m.encChar.toLower, some (pyLower m.charset)⟩ ::
          lineWords false ((a :: t0).drop (ecreMatchLen m))
  termination_by l => l.length
  decreasing_by
    simp [List.length_drop, ecreMatchLen]
    omega

/-- The whitespace-removal pass of `decode_header`: delete every word
that is all whitespace and sits between two encoded words (marks are
computed on the original list, then deleted). -/
def dropSpaceBetweenEncoded (ws : List HeaderWord) : List HeaderWord :=
  (List.range ws.length).filterMap (fun i =>
    if 1 ≤ i ∧ i + 1 < ws.length ∧
        (ws.getD (i - 1) headerWordDefault).enc.isSome ∧
        (ws.getD (i + 1) headerWordDefault).enc.isSome ∧
        isSpaceStr (ws.getD i headerWordDefault).value
    then none else some (ws.getD i headerWordDefault))

/-- The low nibble of a Python `raw-unicode-escape` hex digit (lowercase
letters). -/
def hexDigitByte (n : Nat) : Nat := if n < 10 then 48 + n else 87 + n

/-- One code point under Python `str.encode('raw-unicode-escape')`:
code points up to 0xFF pass through as single bytes, larger ones become
the ASCII bytes of a backslash-u escape (backslash-U with eight digits
above 0xFFFF). -/
def rawUnicodeEscapeChar (c : Char) : List Nat :=
  let n := c.toNat
  if n ≤ 0xFF then [n]
  else if n ≤ 0xFFFF then
    [92, 117, hexDigitByte (n / 4096 % 16), hexDigitByte (n / 256 % 16),
     hexDigitByte (n / 16 % 16), hexDigitByte (n % 16)]
  else
    [92, 85, hexDigitByte (n / 0x10000000 % 16), hexDigitByte (n / 0x1000000 % 16),
     hexDigitByte (n / 0x100000 % 16), hexDigitByte (n / 0x10000 % 16),
     hexDigitByte (n / 4096 % 16), hexDigitByte (n / 256 % 16),
     hexDigitByte (n / 16 % 16), hexDigitByte (n % 16)]

/-- Python `str.encode('raw-unicode-escape')` over a whole string. -/
def rawUnicodeEscapeBytes : List Char → List Nat
  | [] => []
  | c :: rest => rawUnicodeEscapeChar c ++ rawUnicodeEscapeBytes rest

/-- Is a character an ASCII hex digit (the class `[a-fA-F0-9]`)? -/
def isHexDigitChar (c : Char) : Bool :=
  ('0' ≤ c && c ≤ '9') || ('a' ≤ c && c ≤ 'f') || ('A' ≤ c && c ≤ 'F')

/-- The numeric value of an ASCII hex digit. -/
def hexVal (c : Char) : Nat :=
  if '0' ≤ c && c ≤ '9' then c.toNat - 48
  else if 'a' ≤ c && c ≤ 'f' then c.toNat - 97 + 10
  else c.toNat - 65 + 10

/-- The substitution pass of `email.quoprimime.header_decode`: each
`=` followed by two hex digits becomes the character with that code,
scanning left to right with other characters kept verbatim. -/
def qpScan : List Char → List Char
  | [] => []
  | '=' :: a :: b :: rest =>
    if isHexDigitChar a && isHexDigitChar b then
      Char.ofNat (hexVal a * 16 + hexVal b) :: qpScan rest
    else '=' :: qpScan (a :: b :: rest)
  | c :: rest => c :: qpScan rest

/-- `email.quoprimime.header_decode`: replace underscores by spaces,
then substitute `=HH` hex escapes. -/
def quopriHeaderDecode (s : List Char) : List Char :=
  qpScan (s.map (fun c => if c = '_' then ' ' else c))

/-- `email.base64mime.decode` on a `str`: the empty string decodes to no
bytes; otherwise the string is encoded with `raw-unicode-escape` and fed
to the non-strict `a2b_base64`, whose failure (`none`) stands for the
`binascii.Error` it raises. -/
def base64mimeDecode (s : List Char) : Option (List Nat) :=
  if s.isEmpty then some []
  else a2bBase64Loop ((rawUnicodeEscapeBytes s).map Char.ofNat) 0 0 0 []

/-- A decoded word before the collapse pass of `decode_header`: quoted
printable yields text, Base64 yields bytes. -/
inductive StrOrBytes
  | str (s : List Char)
  | bytes (b : List Nat)

/-- The byte form of a decoded word (`bytes(word, 'raw-unicode-escape')`
for text). -/
def strOrBytesToBytes : StrOrBytes → List Nat
  | .str s => rawUnicodeEscapeBytes s
  | .bytes b => b

/-- The transfer-decoding loop of `decode_header`: unencoded words pass
through as text, `q` words are quoted-printable decoded to text, and `b`
words are padded to a multiple of four characters and Base64 decoded —
a Base64 failure raises `HeaderParseError` (the `.error` result; the
final branch mirrors the `AssertionError` for an encoding other than
`q`/`b`, unreachable since the pattern admits only those). -/
def transferDecodeWords :
    List HeaderWord → Except Unit (List (StrOrBytes × Option (List Char)))
  | [] => .ok []
  | w :: rest =>
    match w.enc with
    | none => (transferDecodeWords rest).map ((StrOrBytes.str w.value, w.charset) :: ·)
    | some e =>
      if e = 'q' then
        (transferDecodeWords rest).map
          ((StrOrBytes.str (quopriHeaderDecode w.value), w.charset) :: ·)
      else if e = 'b' then
        let paderr := w.value.length % 4
        let s2 := if paderr > 0 then w.value ++ List.replicate (4 - paderr) '='
                  else w.value
        match base64mimeDecode s2 with
        | some bs => (transferDecodeWords rest).map ((StrOrBytes.bytes bs, w.charset) :: ·)
        | none => .error ()
      else .error ()

/-- The run-collapsing loop of `decode_header`, carrying the pending word
and charset: a charset change flushes the pending pair; equal charsets
concatenate, with a single space byte inserted between two unencoded
(`None`-charset) runs. -/
def collapseRunsGo (lastW : List Nat) (lastC : Option (List Char)) :
    List (StrOrBytes × Option (List Char)) → List (List Nat × Option (List Char))
  | [] => [(lastW, lastC)]
  | (w, c) :: rest =>
    if c ≠ lastC then (lastW, lastC) :: collapseRunsGo (strOrBytesToBytes w) c rest
    else
      match lastC with
      | none => collapseRunsGo (lastW ++ 32 :: strOrBytesToBytes w) none rest
      | some _ => collapseRunsGo (lastW ++ strOrBytesToBytes w) lastC rest

/-- The collapse pass of `decode_header` over the decoded words (the
split path always produces at least one word, so the empty case is
unreachable there). -/
def collapseRuns :
    List (StrOrBytes × Option (List Char)) → List (List Nat × Option (List Char))
  | [] => []
  | (w, c) :: rest => collapseRunsGo (strOrBytesToBytes w) c rest

/-- One element of the list returned by `email.header.decode_header`:
a byte segment with an optional lowered charset name, or — when the
header holds no encoded word at all — the literal header text. -/
inductive HeaderPiece
  | bytesPiece (v : List Nat) (enc : Option (List Char))
  | strPiece (s : List Char)

/-- `email.header.decode_header` (CPython `email/header.py`) on a string
argument: when the encoded-word pattern matches nowhere, the header is
returned whole with no charset; otherwise the header is split into
lines, each line into unencoded and encoded words, whitespace-only words
between encoded words are dropped, the words are transfer-decoded —
raising `HeaderParseError` on a Base64 failure — and consecutive words
of equal charset are collapsed. -/
def decode_header_py (header : List Char) : Except Unit (List HeaderPiece) :=
  match findEcre header with
  | none => .ok [HeaderPiece.strPiece header]
  | some _ =>
    let ws := ((splitlinesPy header).map (lineWords true)).join
    (transferDecodeWords (dropSpaceBetweenEncoded ws)).map
      (fun dws => (collapseRuns dws).map (fun p => HeaderPiece.bytesPiece p.1 p.2))

/-- The character-set registry behind `value.decode(encoding)`:
`decodeWith name v` returns `none` when the codec lookup or the decode
raises (`LookupError` / `UnicodeDecodeError` / any other exception). -/
structure CharsetEnv where
  decodeWith : List Char → List Nat → Option (List Char)

/-- The loop body of `decode_email_header`, appending one segment to the
running `header_text`: byte segments with a truthy charset are decoded
with it under a try that falls back to UTF-8-with-replacement on any
exception; byte segments without one are decoded UTF-8-with-replacement
directly; string segments are appended via `str(value)`. -/
def decodeHeaderStep (env : CharsetEnv) (headerText : List Char) :
    HeaderPiece → List Char
  | .bytesPiece v enc =>
    if truthyOptStr enc then
      match env.decodeWith (enc.getD []) v with
      | some t => headerText ++ t
      | none => headerText ++ utf8DecodeReplace v
    else headerText ++ utf8DecodeReplace v
  | .strPiece s => headerText ++ s

/-- `decode_email_header` from `src/ymail/main.py` (lines 93–110) on the
raw header text: the `decode_header` call at line 95 sits outside any
handler, so its `HeaderParseError` propagates (the `.error` result); on
a successful parse the segments are folded into the result text. -/
def decode_email_header (env : CharsetEnv) (header : List Char) :
    Except Unit (List Char) :=
  (decode_header_py header).map (fun segs => segs.foldl (decodeHeaderStep env) [])

/-- The text contributed by one header segment, as the specification
describes it: decode with the explicit charset when one is given, fall
back to UTF-8 with replacement characters when that decode fails or no
charset is given, and pass literal spans through verbatim. -/
def headerPieceText (env : CharsetEnv) : HeaderPiece → List Char
  | .bytesPiece v enc =>
    if truthyOptStr enc then
      match env.decodeWith (enc.getD []) v with
      | some t => t
      | none => utf8DecodeReplace v
    else utf8DecodeReplace v
  | .strPiece s => s

/-- One part of a parsed MIME message as seen by `msg.walk()`:
`get_content_type()`, the raw `Content-Disposition` header when present,
and the result of `get_payload(decode=True)` (`none` both when it
returns `None` — e.g. for a multipart container — and when the guarded
payload access raises). -/
structure EmailPart where
  contentType : List Char
  contentDisposition : Option (List Char)
  payloadDecoded : Option (List Nat)

/-- A parsed message: either multipart with the part list produced by
`msg.walk()` in walk order, or non-multipart with its sole decoded
payload (`none` when `get_payload(decode=True)` returns `None` or the
access raises). -/
inductive EmailMessage
  | multipart (parts : List EmailPart)
  | single (payloadDecoded : Option (List Nat))

/-- `str(part.get("Content-Disposition"))`: the header text, or the
string `None` when the header is absent. -/
def dispositionStr (p : EmailPart) : List Char :=
  match p.contentDisposition with
  | some s => s
  | none => 'N' :: 'o' :: 'n' :: 'e' :: []

/-- Is `needle` a prefix of `hay`?  (Both are character lists.) -/
def isPrefixCharList : List Char → List Char → Bool
  | [], _ => true
  | _ :: _, [] => false
  | a :: as, b :: bs => a = b && isPrefixCharList as bs

/-- Python substring containment `needle in hay` for strings. -/
def containsSub (needle : List Char) : List Char → Bool
  | [] => isPrefixCharList needle []
  | l@(_ :: t) => isPrefixCharList needle l || containsSub needle t

/-- The attachment test of `get_email_body`:
`"attachment" in content_disposition`. -/
def isAttachmentPart (p : EmailPart) : Bool :=
  containsSub ("attachment".toList) (dispositionStr p)

/-- The loop body of the multipart branch of `get_email_body`, acting on
the accumulator pair (text_content, html_content): attachment parts are
skipped; a non-empty decodable payload overwrites the accumulator of its
content type. -/
def bodyStep (acc : List Char × List Char) (p : EmailPart) : List Char × List Char :=
  if isAttachmentPart p then acc
  else
    match p.payloadDecoded with
    | none => acc
    | some body =>
      if !body.isEmpty then
        if p.contentType = "text/plain".toList then
          (utf8DecodeReplace body, acc.2)
        else if p.contentType = "text/html".toList then
          (acc.1, utf8DecodeReplace body)
        else acc
      else acc

/-- `get_email_body` from `src/ymail/main.py` (lines 113–146): for a
multipart message, fold `bodyStep` over the walked parts starting from
empty accumulators and prefer the plain-text accumulator; for a
non-multipart message, decode the sole payload, the `None`-payload
attribute error being caught and turned into the sentinel string. -/
def get_email_body : EmailMessage → List Char
  | .multipart parts =>
    let acc := parts.foldl bodyStep ([], [])
    if !acc.1.isEmpty then acc.1 else acc.2
  | .single payload =>
    match payload with
    | some body => utf8DecodeReplace body
    | none => "Could not decode email body".toList

/-- The text a part contributes to the accumulator for content type
`ct`, if any: `none` for attachments, missing or empty payloads, and
other content types. -/
def partTextIf (ct : List Char) (p : EmailPart) : Option (List Char) :=
  if isAttachmentPart p then none
  else
    match p.payloadDecoded with
    | none => none
    | some body =>
      if !body.isEmpty then
        if p.contentType = ct then some (utf8DecodeReplace body) else none
      else none

/-- The decoded texts of the non-attachment `text/plain` parts with
non-empty payloads, in walk order. -/
def plainTexts (parts : List EmailPart) : List (List Char) :=
  parts.filterMap (partTextIf ("text/plain".toList))

/-- The decoded texts of the non-attachment `text/html` parts with
non-empty payloads, in walk order. -/
def htmlTexts (parts : List EmailPart) : List (List Char) :=
  parts.filterMap (partTextIf ("text/html".toList))

/-- An abstract live transport handle (`imaplib.IMAP4_SSL` object). -/
structure ImapConn where
  id : Nat
deriving DecidableEq, Repr

/-- The `EmailConfig` dataclass (lines 37–43). -/
structure EmailConfig where
  username : List Char
  password : List Char
  imap_server : List Char
  imap_port : Nat
  connection : Option ImapConn
deriving DecidableEq

/-- Outcome of `connection.noop()` on the existing connection: status
`OK`, some other status, or a raised exception. -/
inductive NoopOutcome
  | ok
  | notOk
  | raises
deriving DecidableEq, Repr

/-- Externally visible protocol actions performed by
`connect_to_email`. -/
inductive ConnectAction
  | noop
  | createConn
  | login
deriving DecidableEq, Repr

/-- The environment a call to `connect_to_email` runs in: the outcome of
a liveness probe on the current connection, the `YAHOO_EMAIL` /
`YAHOO_PASSWORD` environment variables, whether constructing the SSL
connection raises, whether `login` raises, and the handle a successful
construction yields. -/
structure ConnectWorld where
  noopOutcome : NoopOutcome
  envUser : Option (List Char)
  envPass : Option (List Char)
  createRaises : Bool
  loginRaises : Bool
  newConn : ImapConn
deriving DecidableEq

/-- The reconnect block of `connect_to_email` (lines 65–90): read the
credentials, construct a fresh SSL connection to the configured (or
default) server, log in, and replace the global `email_config` with a
new record carrying the dataclass defaults for server and port.  Any
exception leaves the global unchanged and returns `False`.  The returned
triple is (result, new global `email_config`, actions performed). -/
def connectReconnect (cfg : Option EmailConfig) (w : ConnectWorld)
    (acts : List ConnectAction) : Bool × Option EmailConfig × List ConnectAction :=
  if !(truthyOptStr w.envUser && truthyOptStr w.envPass) then (false, cfg, acts)
  else if w.createRaises then (false, cfg, acts ++ [.createConn])
  else if w.loginRaises then (false, cfg, acts ++ [.createConn, .login])
  else
    (true,
     some { username := w.envUser.getD []
            password := w.envPass.getD []
            imap_server := "imap.mail.yahoo.co.jp".toList
            imap_port := 993
            connection := some w.newConn },
     acts ++ [.createConn, .login])

/-- `connect_to_email` from `src/ymail/main.py` (lines 51–90): when the
global config holds a connection, probe it with `noop`; status `OK`
returns `True` at once, any other status or a raised exception falls
through to the reconnect block, as does a missing config or
connection. -/
def connect_to_email (cfg : Option EmailConfig) (w : ConnectWorld) :
    Bool × Option EmailConfig × List ConnectAction :=
  match cfg with
  | some c =>
    match c.connection with
    | some _ =>
      match w.noopOutcome with
      | .ok => (true, some c, [.noop])
      | .notOk => connectReconnect (some c) w [.noop]
      | .raises => connectReconnect (some c) w [.noop]
    | none => connectReconnect (some c) w []
  | none => connectReconnect none w []

/-- Python list slicing `l[k:]` for an arbitrary (possibly negative)
start index: a negative start counts from the end and clamps at the
front; a non-negative start clamps at the back. -/
def pySliceFrom (k : Int) (l : List α) : List α :=
  if k < 0 then l.drop (((l.length : Int) + k).toNat) else l.drop k.toNat

/-- The id-list truncation of `search_emails` (line 294):
`message_ids[-min(limit, len(message_ids)):]`. -/
def searchLimitIds (limit : Int) (ids : List (List Char)) : List (List Char) :=
  pySliceFrom (-(min limit (ids.length : Int))) ids

/-- Python `str.upper()` applied per code point (exact on the ASCII
range, which is all the keyword sniffing below inspects). -/
def pyUpper (s : List Char) : List Char := s.map Char.toUpper

/-- The recognized search field keywords of `search_emails`
(line 281). -/
def searchKeywords : List (List Char) :=
  ["FROM".toList, "TO".toList, "SUBJECT".toList, "BODY".toList,
   "TEXT".toList, "SINCE".toList, "BEFORE".toList, "ON".toList]

/-- `any(x in query.upper() for x in [...])` from `search_emails`. -/
def hasSearchKeyword (query : List Char) : Bool :=
  searchKeywords.any (fun k => containsSub k (pyUpper query))

/-- The query substitution of `search_emails` (lines 279–283): the raw
query is kept unless it lacks every recognized keyword, in which case
the match-all query `ALL` is issued instead. -/
def imapQueryOf (query : List Char) : List Char :=
  if !hasSearchKeyword query then "ALL".toList else query

/-- The trailing-quoted-token extraction of `list_folders` (line 225),
`re.search` with the anchored pattern quote, one-or-more non-quote
characters, quote, end-of-string: the pattern may also match just before
one trailing newline, which `$` accepts. -/
def lastQuotedToken (line : List Char) : Option (List Char) :=
  let core :=
    match line.reverse with
    | '\n' :: r => r
    | r => r
  match core with
  | '"' :: rest =>
    let name := rest.takeWhile (· ≠ '"')
    if name.isEmpty then none
    else if (rest.drop name.length).isEmpty then none
    else some name.reverse
  | _ => none

/-- Python `folder_str.split(' "')`: split on each non-overlapping
occurrence of the two-character separator, scanning left to right. -/
def splitSpaceQuote : List Char → List (List Char)
  | [] => [[]]
  | ' ' :: '"' :: rest => [] :: splitSpaceQuote rest
  | c :: rest =>
    match splitSpaceQuote rest with
    | [] => [[c]]
    | p :: ps => (c :: p) :: ps

/-- Python `s.strip('"')`: remove double quotes from both ends. -/
def stripQuotes (s : List Char) : List Char :=
  ((s.dropWhile (· = '"')).reverse.dropWhile (· = '"')).reverse

/-- View an `Except` as the optional value an enclosing
catch-and-continue handler lets through. -/
def exceptToOption : Except PyDecodeError (List Char) → Option (List Char)
  | .ok v => some v
  | .error _ => none

/-- The per-line parsing of `list_folders` (lines 216–249): extract the
last quoted token and decode it; when the pattern does not match, fall
back to splitting on space-quote and, given at least two pieces, decode
the last piece stripped of quotes; otherwise (or when the surrounding
handler catches a raised decode error) the line contributes nothing. -/
def process_folder_line (line : List Char) : Option (List Char) :=
  match lastQuotedToken line with
  | some name => exceptToOption (decode_modified_utf7 name)
  | none =>
    let parts := splitSpaceQuote line
    if 2 ≤ parts.length then
      exceptToOption (decode_modified_utf7 (stripQuotes (parts.getLastD [])))
    else none

/-- The folder list assembled by `list_folders` (lines 215–252) from the
decoded response lines: each line contributes its parsed name, lines
whose parsing yields nothing are skipped. -/
def list_folders_names (lines : List (List Char)) : List (List Char) :=
  lines.filterMap process_folder_line

/-- The body field computed by `read_email` (line 365):
`body[:2000] + ("..." if len(body) > 2000 else "")`. -/
def read_email_body_field (body : List Char) : List Char :=
  body.take 2000 ++ (if 2000 < body.length then "...".toList else [])

/-! ### Supporting lemmas -/

/-- Permissive UTF-8 decoding of a non-empty byte list yields a
non-empty text: every step of the decoder consumes at least one byte and
emits at least one character. -/
theorem utf8DecodeReplace_cons_ne_nil (b : Nat) (rest : List Nat) :
    utf8DecodeReplace (b :: rest) ≠ [] := by
  unfold utf8DecodeReplace
  repeat' split
  all_goals simp

/-- The first accumulator component after one `bodyStep` is the text the
part contributes for `text/plain`, defaulting to the old value. -/
theorem bodyStep_fst (acc : List Char × List Char) (p : EmailPart) :
    (bodyStep acc p).1 = (partTextIf ("text/plain".toList) p).getD acc.1 := by
  rcases p with ⟨ct, cd, pl⟩
  cases pl <;>
    simp only [bodyStep, partTextIf] <;>
    split_ifs <;>
    simp_all

/-- The second accumulator component after one `bodyStep` is the text
the part contributes for `text/html`, defaulting to the old value. -/
theorem bodyStep_snd (acc : List Char × List Char) (p : EmailPart) :
    (bodyStep acc p).2 = (partTextIf ("text/html".toList) p).getD acc.2 := by
  rcases p with ⟨ct, cd, pl⟩
  cases pl <;>
    simp only [bodyStep, partTextIf] <;>
    split_ifs <;>
    simp_all

/-- Folding the body-extraction step over the walked parts computes, in
each component, the last contributed text of that content type (or the
starting value when there is none). -/
theorem foldl_bodyStep_eq (parts : List EmailPart) (acc : List Char × List Char) :
    parts.foldl bodyStep acc =
      ((plainTexts parts).getLastD acc.1, (htmlTexts parts).getLastD acc.2) := by
  induction parts generalizing acc with
  | nil => simp [plainTexts, htmlTexts]
  | cons p ps ih =>
    rw [List.foldl_cons, ih, bodyStep_fst, bodyStep_snd]
    cases h1 : partTextIf ("text/plain".toList) p <;>
      cases h2 : partTextIf ("text/html".toList) p <;>
        simp only [plainTexts, htmlTexts, List.filterMap_cons, h1, h2,
          Option.getD_some, Option.getD_none, List.getLastD_cons]

/-- Any text collected by `partTextIf` is non-empty: it is the
permissive decoding of a payload the code checked to be truthy. -/
theorem partTextIf_ne_nil (ct : List Char) (p : EmailPart) (t : List Char)
    (h : partTextIf ct p = some t) : t ≠ [] := by
  unfold partTextIf at h
  split at h
  · exact absurd h (by simp)
  · split at h
    · exact absurd h (by simp)
    · next body heq =>
      split_ifs at h with hb hct
      · injection h with h2
        subst h2
        cases body with
        | nil => simp at hb
        | cons b bs => exact utf8DecodeReplace_cons_ne_nil b bs

/-- Appending one segment via the header-decoding loop body appends that
segment's decoded text. -/
theorem decodeHeaderStep_eq (env : CharsetEnv) (a : List Char) (s : HeaderPiece) :
    decodeHeaderStep env a s = a ++ headerPieceText env s := by
  cases s with
  | bytesPiece v enc =>
    simp only [decodeHeaderStep, headerPieceText]
    by_cases ht : truthyOptStr enc = true
    · rw [if_pos ht, if_pos ht]
      cases h : env.decodeWith (enc.getD []) v
      · rfl
      · rfl
    · rw [if_neg ht, if_neg ht]
  | strPiece s => rfl

/-- The header-decoding fold, started from any prefix, appends the
concatenation of the segment texts. -/
theorem decode_header_foldl (env : CharsetEnv) (segs : List HeaderPiece)
    (acc : List Char) :
    segs.foldl (decodeHeaderStep env) acc =
      acc ++ (segs.map (headerPieceText env)).join := by
  induction segs generalizing acc with
  | nil => simp
  | cons s ss ih => simp [decodeHeaderStep_eq, ih]

/-! ### Claims -/

/-- C1: the specification claims `decode_modified_utf7` is total and
never raises; the code, however, raises an uncaught `ValueError` as soon
as an escape payload contains a non-ASCII character, because
`base64.b64decode` rejects such a string before Base64 decoding begins
and only `UnicodeDecodeError` and `binascii.Error` are caught.  At the
three-character input ampersand, U+3042, dash the function raises. -/
theorem decode_modified_utf7_raises_on_nonascii_payload :
    decode_modified_utf7 ('&' :: 'あ' :: '-' :: []) =
      Except.error PyDecodeError.valueError := by
  simp [decode_modified_utf7, findDashIdx, decodeEscapePayload, b64decode]

/-- C2 counterexample: a multipart message whose only part is an
attachment leaves both accumulators empty, and `get_email_body` then
returns the empty string, not the sentinel, contradicting the claim. -/
theorem get_email_body_multipart_empty_is_not_sentinel :
    get_email_body (EmailMessage.multipart
      [{ contentType := "text/plain".toList,
         contentDisposition := some "attachment".toList,
         payloadDecoded := some [104, 105] }]) = [] ∧
    ([] : List Char) ≠ "Could not decode email body".toList := by
  constructor
  · rfl
  · decide

/-- C2 amended: for a multipart message in which both accumulators end
empty, `get_email_body` returns the empty string (and does not raise);
the sentinel string is produced only by the non-multipart branch. -/
theorem get_email_body_multipart_empty_acc (parts : List EmailPart)
    (h : parts.foldl bodyStep ([], []) = ([], [])) :
    get_email_body (EmailMessage.multipart parts) = [] := by
  simp only [get_email_body]
  rw [h]
  simp

/-- C2 witness: the amended statement applied to the empty part list. -/
theorem get_email_body_multipart_empty_acc_witness :
    ([] : List EmailPart).foldl bodyStep ([], []) = ([], []) ∧
    get_email_body (EmailMessage.multipart []) = [] :=
  ⟨rfl, get_email_body_multipart_empty_acc [] rfl⟩

/-- C3 counterexample: the line `x "ab` has no trailing quoted token,
yet `list_folders` still parses it through the split-on-space-quote
fallback and appends the decoded name `ab` to the folder list,
contradicting the claim that such lines contribute no entry. -/
theorem folder_line_without_trailing_quote_still_contributes :
    lastQuotedToken ('x' :: ' ' :: '"' :: 'a' :: 'b' :: []) = none ∧
    list_folders_names [('x' :: ' ' :: '"' :: 'a' :: 'b' :: [])] =
      [('a' :: 'b' :: [])] := by
  constructor
  · rfl
  · have hd : decode_modified_utf7 ('a' :: 'b' :: []) = .ok ('a' :: 'b' :: []) := by
      simp [decode_modified_utf7, findDashIdx, Except.map]
    have h1 : process_folder_line ('x' :: ' ' :: '"' :: 'a' :: 'b' :: []) =
        some ('a' :: 'b' :: []) := by
      simp [process_folder_line, lastQuotedToken, splitSpaceQuote, stripQuotes,
        exceptToOption, hd]
    simp [list_folders_names, List.filterMap_cons, h1]

/-- C3 amended: a response line from which no trailing quoted token can
be extracted is retried with a fallback that splits the line on the
two-character separator space-quote; only when that yields fewer than
two pieces is the line skipped, and otherwise the last piece, stripped
of double quotes and decoded, is the entry it contributes (none when the
decoder raises). -/
theorem folder_line_fallback_parse (line : List Char)
    (h : lastQuotedToken line = none) :
    ((splitSpaceQuote line).length < 2 → process_folder_line line = none) ∧
    (2 ≤ (splitSpaceQuote line).length →
      process_folder_line line =
        exceptToOption (decode_modified_utf7
          (stripQuotes ((splitSpaceQuote line).getLastD [])))) := by
  constructor
  · intro h2
    unfold process_folder_line
    rw [h]
    simp only
    rw [if_neg (by omega)]
  · intro h2
    unfold process_folder_line
    rw [h]
    simp only
    rw [if_pos h2]

/-- C3 witness: the amended statement at the line `abc`, which neither
parser accepts, so it contributes nothing. -/
theorem folder_line_fallback_parse_witness :
    lastQuotedToken ('a' :: 'b' :: 'c' :: []) = none ∧
    (splitSpaceQuote ('a' :: 'b' :: 'c' :: [])).length < 2 ∧
    process_folder_line ('a' :: 'b' :: 'c' :: []) = none :=
  ⟨rfl, by decide,
    (folder_line_fallback_parse ('a' :: 'b' :: 'c' :: []) rfl).1 (by decide)⟩

/-- C4: for every returned id list and every limit of at least one, the
id truncation of `search_emails` keeps exactly the last
`min(limit, n)` ids, in their original order (a tail slice). -/
theorem search_limit_takes_last_ids (ids : List (List Char)) (limit : Int)
    (h : 1 ≤ limit) :
    searchLimitIds limit ids =
      ids.drop (ids.length - min limit.toNat ids.length) ∧
    (searchLimitIds limit ids).length = min limit.toNat ids.length := by
  have key : searchLimitIds limit ids =
      ids.drop (ids.length - min limit.toNat ids.length) := by
    unfold searchLimitIds pySliceFrom
    split
    · next hlt =>
      have hAB : ((ids.length : Int) + -(min limit (ids.length : Int))).toNat
          = ids.length - min limit.toNat ids.length := by omega
      rw [hAB]
    · next hge =>
      have hids : ids = [] := by
        refine List.eq_nil_of_length_eq_zero ?_
        omega
      subst hids
      simp
  refine ⟨key, ?_⟩
  rw [key, List.length_drop]
  omega

/-- C4 witness: slicing seven ids with limit five keeps the last
five. -/
theorem search_limit_takes_last_ids_witness :
    searchLimitIds 5 (List.replicate 7 ['x']) =
      (List.replicate 7 ['x']).drop
        ((List.replicate 7 ['x']).length -
          min (Int.toNat 5) (List.replicate 7 ['x']).length) ∧
    (searchLimitIds 5 (List.replicate 7 ['x'])).length =
      min (Int.toNat 5) (List.replicate 7 ['x']).length :=
  search_limit_takes_last_ids (List.replicate 7 ['x']) 5 (by decide)

/-- C5: the keyword sniffing of `search_emails` — a query containing no
recognized field keyword (case-insensitively) is replaced by the
match-all query `ALL`, making the search behave exactly like one issued
with the match-all query, while a query containing a keyword is passed
through unchanged. -/
theorem search_query_keyword_substitution (q : List Char) :
    (hasSearchKeyword q = false →
      imapQueryOf q = "ALL".toList ∧
      imapQueryOf q = imapQueryOf ("ALL".toList)) ∧
    (hasSearchKeyword q = true → imapQueryOf q = q) := by
  constructor
  · intro h
    have hall : imapQueryOf ("ALL".toList) = "ALL".toList := by decide
    refine ⟨by simp [imapQueryOf, h], ?_⟩
    rw [hall]
    simp [imapQueryOf, h]
  · intro h
    simp [imapQueryOf, h]

/-- C5 witness: the query `hello world` contains no keyword and is
replaced by `ALL`. -/
theorem search_query_keyword_substitution_witness :
    hasSearchKeyword ("hello world".toList) = false ∧
    imapQueryOf ("hello world".toList) = "ALL".toList :=
  ⟨by decide,
    ((search_query_keyword_substitution ("hello world".toList)).1 (by decide)).1⟩

/-- C6: the selection policy of `get_email_body` on a multipart message:
attachment parts contribute nothing, and the result is the decoded last
non-attachment `text/plain` payload when one exists, otherwise the
decoded last non-attachment `text/html` payload, otherwise the empty
string. -/
theorem get_email_body_selection_policy (parts : List EmailPart) :
    get_email_body (EmailMessage.multipart parts) =
      ((plainTexts parts).getLast?).getD (((htmlTexts parts).getLast?).getD []) := by
  simp only [get_email_body]
  rw [foldl_bodyStep_eq]
  cases hp : (plainTexts parts).getLast? with
  | some t =>
    have ht : t ≠ [] := by
      have hm : t ∈ plainTexts parts := List.mem_of_mem_getLast? hp
      obtain ⟨p, hpmem, hsome⟩ := List.mem_filterMap.mp hm
      exact partTextIf_ne_nil _ p t hsome
    simp [hp, ht]
  | none =>
    have hnil : plainTexts parts = [] := List.getLast?_eq_none_iff.mp hp
    simp [hnil, List.getLastD_eq_getLast?]

/-- C7: the body truncation of `read_email` — a decoded body longer than
2000 characters is cut to its first 2000 characters with the marker
appended, and a body of at most 2000 characters is returned
unchanged. -/
theorem read_email_body_truncation (body : List Char) :
    (2000 < body.length →
      read_email_body_field body = body.take 2000 ++ "...".toList) ∧
    (body.length ≤ 2000 → read_email_body_field body = body) := by
  constructor
  · intro h
    unfold read_email_body_field
    rw [if_pos h]
  · intro h
    unfold read_email_body_field
    rw [if_neg (by omega), List.append_nil, List.take_of_length_le h]

/-- C7 witness: a body of 2500 characters is truncated to its first 2000
characters plus the marker. -/
theorem read_email_body_truncation_witness :
    read_email_body_field (List.replicate 2500 'a') =
      (List.replicate 2500 'a').take 2000 ++ "...".toList :=
  (read_email_body_truncation (List.replicate 2500 'a')).1 (by simp)

/-- On headers the parser accepts, `decode_email_header` does
concatenate, in their original order, the decoded texts of all header
segments — each byte segment decoded with its truthy charset when given
and successful, with the UTF-8 replacement fallback otherwise, and each
literal span verbatim. -/
theorem decode_email_header_ok_concatenates (env : CharsetEnv)
    (header : List Char) (segs : List HeaderPiece)
    (h : decode_header_py header = Except.ok segs) :
    decode_email_header env header =
      Except.ok ((segs.map (headerPieceText env)).join) := by
  unfold decode_email_header
  rw [h]
  simp [Except.map, decode_header_foldl]

/-- C8: the specification claims `decode_email_header` never raises, but
the `decode_header` call at line 95 sits outside every handler and
raises `HeaderParseError` on a Base64 encoded-word whose payload is one
character more than a multiple of four — even after the parser's own
padding repair, `a2b_base64` rejects it.  The thirteen-character header
`=?utf-8?b?A?=` therefore makes the function raise, whatever the
charset registry holds. -/
theorem decode_email_header_raises_on_bad_base64_word (env : CharsetEnv) :
    decode_email_header env ("=?utf-8?b?A?=".toList) = Except.error () := by
  show decode_email_header env
    ['=', '?', 'u', 't', 'f', '-', '8', '?', 'b', '?', 'A', '?', '='] =
    Except.error ()
  have e1 : findEcre ['=', '?', 'u', 't', 'f', '-', '8', '?', 'b', '?', 'A', '?', '='] =
      some ⟨[], ['u', 't', 'f', '-', '8'], 'b', ['A']⟩ := rfl
  have e2 : splitlinesPy ['=', '?', 'u', 't', 'f', '-', '8', '?', 'b', '?', 'A', '?', '='] =
      [['=', '?', 'u', 't', 'f', '-', '8', '?', 'b', '?', 'A', '?', '=']] := by
    simp [splitlinesPy, isLineBreakChar, List.takeWhile]
  have e3 : lineWords true ['=', '?', 'u', 't', 'f', '-', '8', '?', 'b', '?', 'A', '?', '='] =
      [⟨['A'], some 'b', some ['u', 't', 'f', '-', '8']⟩] := by
    simp [lineWords, e1, ecreMatchLen, isPySpace, pyLower, Char.toLower]
  have e4 : transferDecodeWords
      (dropSpaceBetweenEncoded [⟨['A'], some 'b', some ['u', 't', 'f', '-', '8']⟩]) =
      Except.error () := rfl
  have h1 : decode_header_py
      ['=', '?', 'u', 't', 'f', '-', '8', '?', 'b', '?', 'A', '?', '='] =
      Except.error () := by
    simp only [decode_header_py, e1, e2, e3, List.map_cons, List.map_nil]
    simp [e4, Except.map]
  unfold decode_email_header
  rw [h1]
  rfl

/-- C9: when the global config holds a connection and the liveness probe
answers `OK`, `connect_to_email` returns `True`, leaves the session
state untouched, and performs exactly one probe and no login; calling it
again on the resulting state under a healthy probe does exactly the same
(idempotence, one probe per call, zero re-logins). -/
theorem connect_to_email_idempotent_when_healthy (c : EmailConfig)
    (w w2 : ConnectWorld) (hc : c.connection.isSome)
    (hw : w.noopOutcome = NoopOutcome.ok) (hw2 : w2.noopOutcome = NoopOutcome.ok) :
    connect_to_email (some c) w = (true, some c, [ConnectAction.noop]) ∧
    connect_to_email (connect_to_email (some c) w).2.1 w2 =
      (true, some c, [ConnectAction.noop]) := by
  rcases c with ⟨u, p, srv, prt, conn⟩
  cases conn with
  | none => simp at hc
  | some cn =>
    have h1 : connect_to_email
        (some ⟨u, p, srv, prt, some cn⟩) w =
        (true, some ⟨u, p, srv, prt, some cn⟩, [ConnectAction.noop]) := by
      simp [connect_to_email, hw]
    have h2 : connect_to_email
        (connect_to_email (some ⟨u, p, srv, prt, some cn⟩) w).2.1 w2 =
        (true, some ⟨u, p, srv, prt, some cn⟩, [ConnectAction.noop]) := by
      rw [h1]
      simp [connect_to_email, hw2]
    exact ⟨h1, h2⟩

/-- C9 witness: the idempotence statement at a concrete connected
session and healthy probes. -/
theorem connect_to_email_idempotent_when_healthy_witness :
    ({ username := ['u'], password := ['p'],
       imap_server := "imap.mail.yahoo.co.jp".toList, imap_port := 993,
       connection := some { id := 0 } } : EmailConfig).connection.isSome ∧
    connect_to_email
      (some { username := ['u'], password := ['p'],
              imap_server := "imap.mail.yahoo.co.jp".toList, imap_port := 993,
              connection := some { id := 0 } })
      { noopOutcome := NoopOutcome.ok, envUser := none, envPass := none,
        createRaises := false, loginRaises := false, newConn := { id := 1 } } =
      (true,
       some { username := ['u'], password := ['p'],
              imap_server := "imap.mail.yahoo.co.jp".toList, imap_port := 993,
              connection := some { id := 0 } },
       [ConnectAction.noop]) :=
  ⟨rfl,
    (connect_to_email_idempotent_when_healthy
      { username := ['u'], password := ['p'],
        imap_server := "imap.mail.yahoo.co.jp".toList, imap_port := 993,
        connection := some { id := 0 } }
      { noopOutcome := NoopOutcome.ok, envUser := none, envPass := none,
        createRaises := false, loginRaises := false, newConn := { id := 1 } }
      { noopOutcome := NoopOutcome.ok, envUser := none, envPass := none,
        createRaises := false, loginRaises := false, newConn := { id := 1 } }
      rfl rfl rfl).1⟩

/-- C10: with `limit = 0` and a non-empty id list, the minimum is zero,
the slice start `-0` is `0`, and the tail slice keeps the whole id list:
the search processes every matching message rather than none. -/
theorem search_limit_zero_keeps_all (ids : List (List Char))
    (h : 0 < ids.length) : searchLimitIds 0 ids = ids := by
  unfold searchLimitIds pySliceFrom
  have hmin : min (0 : Int) (ids.length : Int) = 0 := by omega
  rw [hmin]
  norm_num

/-- C10 witness: the zero-limit slice at a one-element id list. -/
theorem search_limit_zero_keeps_all_witness :
    0 < ([['1']] : List (List Char)).length ∧
    searchLimitIds 0 ([['1']] : List (List Char)) = [['1']] :=
  ⟨by decide, search_limit_zero_keeps_all [['1']] (by decide)⟩

end YMail
